import Mathlib

/-!
Shallow embedding of the core of the `trust-buffer-simulation` repository
(bounded knowledge stores, eviction strategies, the discrete-event scheduler,
utility computation and the challenge-response bookkeeping), together with
theorems settling the specification claims about it.

Conventions used throughout:
* Python `float` time stamps and trust scores are modelled by `ℚ`
  (the program only compares and averages them).
* Python object identity (`is`) is modelled by numeric ids carried in the
  structures; mutation of an object shared by reference is modelled
  explicitly with a heap (see the reputation-snapshot development).
* A Python function that can raise is modelled with `Except Unit` / `Option`:
  `Except.error ()` stands for an uncaught exception
  (`ValueError` from `min` on an empty sequence, `IndexError` from
  `random.choice` on an empty sequence, the numpy error from `np.quantile`
  of an empty array, `BoundExceedError` from `BoundedList`).
-/

namespace TrustSim

/-- Python's `min(items, key=key)`: returns the first element attaining the
minimal key (CPython keeps the current best on ties and replaces it only on a
strictly smaller key), and `none` when the sequence is empty (`ValueError`). -/
def pythonMinBy {α β : Type} [LinearOrder β] (key : α → β) : List α → Option α
  | [] => none
  | x :: xs => some (xs.foldl (fun best y => if key y < key best then y else best) x)

/-- Python's `max(items, key=key)`: first element attaining the maximal key,
`none` on the empty sequence (`ValueError`). -/
def pythonMaxBy {α β : Type} [LinearOrder β] (key : α → β) : List α → Option α
  | [] => none
  | x :: xs => some (xs.foldl (fun best y => if key best < key y then y else best) x)

/-!
## `simulation/bounded_list.py`

`BoundedList` stores its capacity in `self.length` (`None` when absent).  Both
bound checks start with the *truthiness* test `if self.length and ...`, so a
capacity of `None` — and likewise a capacity of `0`, which is falsy in Python —
disables the check entirely.  `cap : Option Nat` mirrors `self.length`.
-/

/-- `BoundedList._check_item_bound` followed by `list.append`:
`if self.length and len(self) >= self.length: raise BoundExceedError()`. -/
def blAppend {α : Type} (cap : Option Nat) (l : List α) (x : α) : Except Unit (List α) :=
  match cap with
  | none => Except.ok (l ++ [x])
  | some n => if n ≠ 0 ∧ n ≤ l.length then Except.error () else Except.ok (l ++ [x])

/-- `BoundedList._check_list_bound` followed by `list.extend`:
`if self.length and len(self) + len(values) > self.length: raise`. -/
def blExtend {α : Type} (cap : Option Nat) (l : List α) (values : List α) :
    Except Unit (List α) :=
  match cap with
  | none => Except.ok (l ++ values)
  | some n =>
    if n ≠ 0 ∧ n < l.length + values.length then Except.error () else Except.ok (l ++ values)

/-- Python's `list.insert(pos, x)`: negative positions count from the end and
the position is clamped into `[0, len(l)]`; the length always grows by one. -/
def pyInsert {α : Type} (l : List α) (pos : Int) (x : α) : List α :=
  let n : Int := l.length
  let p : Int := if pos < 0 then max (n + pos) 0 else min pos n
  l.insertIdx p.toNat x

/-- `BoundedList.insert`: `_check_item_bound` (the same check as `append`)
followed by `list.insert`. -/
def blInsert {α : Type} (cap : Option Nat) (l : List α) (pos : Int) (x : α) :
    Except Unit (List α) :=
  match cap with
  | none => Except.ok (pyInsert l pos x)
  | some n => if n ≠ 0 ∧ n ≤ l.length then Except.error () else Except.ok (pyInsert l pos x)

/-- Python's `list.remove(x)`: removes the first occurrence equal to `x`,
raising `ValueError` when `x` is absent. -/
def pyRemove {α : Type} [DecidableEq α] (l : List α) (x : α) : Except Unit (List α) :=
  if x ∈ l then Except.ok (l.erase x) else Except.error ()

/-- One operation of a client driving a `BoundedList`. -/
inductive BLOp (α : Type) : Type
  | append (x : α)
  | insert (pos : Int) (x : α)
  | remove (x : α)
  | extendOp (xs : List α)

/-- Run one `BoundedList` operation; a raised `BoundExceedError`/`ValueError`
propagates to the caller and leaves the list itself unchanged. -/
def blStep {α : Type} [DecidableEq α] (cap : Option Nat) (l : List α) : BLOp α → List α
  | BLOp.append x =>
    match blAppend cap l x with
    | Except.ok l2 => l2
    | Except.error _ => l
  | BLOp.insert pos x =>
    match blInsert cap l pos x with
    | Except.ok l2 => l2
    | Except.error _ => l
  | BLOp.remove x =>
    match pyRemove l x with
    | Except.ok l2 => l2
    | Except.error _ => l
  | BLOp.extendOp xs =>
    match blExtend cap l xs with
    | Except.ok l2 => l2
    | Except.error _ => l

/-- A `BoundedList` constructed empty with capacity `cap`, after a sequence of
operations. -/
def blRun {α : Type} [DecidableEq α] (cap : Option Nat) (ops : List (BLOp α)) : List α :=
  ops.foldl (blStep cap) []

/-!
## `simulation/agent_buffers.py` — the knowledge items

Agents and capabilities are referenced by the items; Python compares them with
`is` (object identity), modelled here by numeric ids.  The opaque
`eviction_data: Any = None` field is owned by the eviction strategies, which
store either a time stamp (`WithBot ℚ`, with `⊥` for the initial `None`) or,
for LRU2, a pair of time stamps.
-/

/-- An interaction outcome (`simulation/capability_behaviour.py`). -/
inductive InteractionObservation : Type
  | Correct
  | Incorrect
deriving DecidableEq

/-- `CryptoItem`. -/
structure CryptoItem : Type where
  agent : Nat
  eviction_data : WithBot ℚ := ⊥
deriving DecidableEq

/-- `TrustItem` with its interaction counters. -/
structure TrustItem : Type where
  agent : Nat
  capability : Nat
  correct_count : Nat := 0
  incorrect_count : Nat := 0
  eviction_data : WithBot ℚ := ⊥
deriving DecidableEq

/-- `TrustItem.record`. -/
def TrustItem.record (t : TrustItem) (outcome : InteractionObservation) : TrustItem :=
  if outcome = InteractionObservation.Correct then
    { t with correct_count := t.correct_count + 1 }
  else
    { t with incorrect_count := t.incorrect_count + 1 }

/-- `TrustItem.total_count`. -/
def TrustItem.total_count (t : TrustItem) : Nat :=
  t.correct_count + t.incorrect_count

/-- `TrustItem.brs_trust`: successes over total, defaulting to `0.5` with no
history. -/
def TrustItem.brs_trust (t : TrustItem) : ℚ :=
  if t.total_count = 0 then 1/2
  else (t.correct_count : ℚ) / ((t.correct_count : ℚ) + (t.incorrect_count : ℚ))

/-- `ReputationItem`: another agent plus a copied list of its trust items. -/
structure ReputationItem : Type where
  agent : Nat
  trust_items : List TrustItem
  eviction_data : WithBot ℚ := ⊥
deriving DecidableEq

/-- `StereotypeItem`. -/
structure StereotypeItem : Type where
  agent : Nat
  capability : Nat
  eviction_data : WithBot ℚ := ⊥
deriving DecidableEq

/-- `ChallengeResponseItem` with its goodness bookkeeping. -/
structure ChallengeResponseItem : Type where
  agent : Nat
  good : Bool
  epoch : Nat := 0
  sequential_fails : Nat := 0
  eviction_data : WithBot ℚ := ⊥
deriving DecidableEq

/-- `ChallengeResponseItem.record`: set `good` from the outcome, bump `epoch`
exactly when goodness changed, reset or increment `sequential_fails`. -/
def ChallengeResponseItem.record (c : ChallengeResponseItem)
    (outcome : InteractionObservation) : ChallengeResponseItem :=
  let newGood := decide (outcome = InteractionObservation.Correct)
  let newEpoch := if c.good ≠ newGood then c.epoch + 1 else c.epoch
  let newFails := if newGood then 0 else c.sequential_fails + 1
  { c with good := newGood, epoch := newEpoch, sequential_fails := newFails }

/-- Number of consecutive `Incorrect` outcomes at the end of a sequence. -/
def trailingIncorrect (l : List InteractionObservation) : Nat :=
  (l.reverse.takeWhile (fun o => o = InteractionObservation.Incorrect)).length

/-!
## `simulation/eviction_strategy.py`

The strategies' `add_common` / `use_common` / `choose_common` only ever read an
item's `agent` and its `eviction_data`; `EItem` models `ItemT` (any knowledge
item) as seen by them, with `id` standing for the Python object identity.
-/

/-- A knowledge item as the eviction strategies see it. -/
structure EItem : Type where
  id : Nat
  agent : Nat
  eviction_data : WithBot ℚ := ⊥
deriving DecidableEq

/-- An item as `LRU2EvictionStrategy` sees it: `eviction_data` is the pair
`(most recent use, previous use)` set by its `add_common`/`use_common`. -/
structure EItem2 : Type where
  id : Nat
  agent : Nat
  eviction_data : ℚ × ℚ
deriving DecidableEq

/-- `NoneEvictionStrategy.choose_common`: never evicts. -/
def noneChooseCommon (_items : List EItem) : Except Unit (Option EItem) :=
  Except.ok none

/-- `RandomEvictionStrategy.choose_common`: `self.sim.rng.choice(items)`.
`random.Random.choice` evaluates `seq[self._randbelow(len(seq))]`, so an empty
sequence raises `IndexError`; the PRNG draw is modelled by the oracle `r`. -/
def randomChooseCommon (r : Nat) (items : List EItem) : Except Unit (Option EItem) :=
  match items with
  | [] => Except.error ()
  | _ => Except.ok (items.get? (r % items.length))

/-- `FIFOEvictionStrategy.choose_common`: `min(items, key=eviction_data)`;
`min` of an empty sequence raises `ValueError`. -/
def fifoChooseCommon (items : List EItem) : Except Unit (Option EItem) :=
  match pythonMinBy EItem.eviction_data items with
  | some r => Except.ok (some r)
  | none => Except.error ()

/-- `LRUEvictionStrategy.choose_common`: `min(items, key=eviction_data)`. -/
def lruChooseCommon (items : List EItem) : Except Unit (Option EItem) :=
  match pythonMinBy EItem.eviction_data items with
  | some r => Except.ok (some r)
  | none => Except.error ()

/-- `LRU2EvictionStrategy.choose_common`: `min(items, key=eviction_data[1])`. -/
def lru2ChooseCommon (items : List EItem2) : Except Unit (Option EItem2) :=
  match pythonMinBy (fun x => x.eviction_data.2) items with
  | some r => Except.ok (some r)
  | none => Except.error ()

/-- `MRUEvictionStrategy.choose_common`: `max(items, key=eviction_data)`. -/
def mruChooseCommon (items : List EItem) : Except Unit (Option EItem) :=
  match pythonMaxBy EItem.eviction_data items with
  | some r => Except.ok (some r)
  | none => Except.error ()

/-- Insert into a sorted list, keeping order — helper for `pySort`. -/
def insertSorted (x : ℚ) : List ℚ → List ℚ
  | [] => [x]
  | y :: ys => if x ≤ y then x :: y :: ys else y :: insertSorted x ys

/-- Ascending sort, as `np.quantile` applies to its input. -/
def pySort (l : List ℚ) : List ℚ :=
  l.foldr insertSorted []

/-- Floor of a non-negative rational, as a natural number (numpy's virtual
index `q * (n - 1)` is non-negative for the quantiles the program uses). -/
def ratFloorNat (q : ℚ) : Nat :=
  (⌊q⌋).toNat

/-- `np.quantile(xs, q)` with the default linear interpolation: the virtual
index is `q * (n - 1)` and the result interpolates between its two
neighbouring order statistics.  numpy raises on an empty input (`none`).
Exact rational arithmetic stands in for the floating-point evaluation. -/
def npQuantile (xs : List ℚ) (q : ℚ) : Option ℚ :=
  match pySort xs with
  | [] => none
  | s =>
    let n := s.length
    let pos : ℚ := q * ((n : ℚ) - 1)
    let i := ratFloorNat pos
    let lo := s.getD i 0
    let hi := s.getD (min (i + 1) (n - 1)) 0
    some (lo + (pos - (ratFloorNat pos : ℚ)) * (hi - lo))

/-- `Chen2016EvictionStrategy.choose_trust`: filter to trust at or below the
median, LRU there, full-set LRU when the filtered list is empty. -/
def chen2016ChooseTrust (items : List TrustItem) : Except Unit (Option TrustItem) :=
  match npQuantile (items.map TrustItem.brs_trust) (1/2) with
  | none => Except.error ()
  | some quantile =>
    let filtered := items.filter (fun item => item.brs_trust ≤ quantile)
    match pythonMinBy TrustItem.eviction_data filtered with
    | some r => Except.ok (some r)
    | none =>
      match pythonMinBy TrustItem.eviction_data items with
      | some r => Except.ok (some r)
      | none => Except.error ()

/-- `Chen2016EvictionStrategy.choose_common`: plain LRU. -/
def chen2016ChooseCommon (items : List EItem) : Except Unit (Option EItem) :=
  match pythonMinBy EItem.eviction_data items with
  | some r => Except.ok (some r)
  | none => Except.error ()

/-- The quintile boundaries `(low, lowmid, mid, highmid)` that
`FiveBandEvictionStrategy.choose_trust` computes with
`np.quantile(item_trust, [0.2, 0.4, 0.6, 0.8, 1.0])` (the unused top value is
dropped). -/
def fiveBandBounds (items : List TrustItem) : Option (ℚ × ℚ × ℚ × ℚ) :=
  let it := items.map TrustItem.brs_trust
  match npQuantile it (1/5), npQuantile it (2/5), npQuantile it (3/5), npQuantile it (4/5) with
  | some low, some lowmid, some mid, some highmid => some (low, lowmid, mid, highmid)
  | _, _, _, _ => none

/-- The eligible-for-eviction list of `FiveBandEvictionStrategy.choose_trust`:
items whose trust lies strictly above `low` and at most `lowmid`, or strictly
above `mid` and at most `highmid`. -/
def fiveBandEligible (items : List TrustItem) : List TrustItem :=
  match fiveBandBounds items with
  | none => []
  | some (low, lowmid, mid, highmid) =>
    items.filter (fun item =>
      decide ((low < item.brs_trust ∧ item.brs_trust ≤ lowmid) ∨
              (mid < item.brs_trust ∧ item.brs_trust ≤ highmid)))

/-- `FiveBandEvictionStrategy.choose_trust`: LRU over the eligible bands,
falling back to Chen2016's median rule and then to plain LRU. -/
def fiveBandChooseTrust (items : List TrustItem) : Except Unit (Option TrustItem) :=
  match fiveBandBounds items with
  | none => Except.error ()
  | some _ =>
    match pythonMinBy TrustItem.eviction_data (fiveBandEligible items) with
    | some r => Except.ok (some r)
    | none =>
      match npQuantile (items.map TrustItem.brs_trust) (1/2) with
      | none => Except.error ()
      | some quantile =>
        let filtered := items.filter (fun item => item.brs_trust ≤ quantile)
        match pythonMinBy TrustItem.eviction_data filtered with
        | some r => Except.ok (some r)
        | none =>
          match pythonMinBy TrustItem.eviction_data items with
          | some r => Except.ok (some r)
          | none => Except.error ()

/-- `FiveBandEvictionStrategy.choose_common`: plain LRU. -/
def fiveBandChooseCommon (items : List EItem) : Except Unit (Option EItem) :=
  match pythonMinBy EItem.eviction_data items with
  | some r => Except.ok (some r)
  | none => Except.error ()

/-- `NotInOtherEvictionStrategy._lru`: empty choices mean no victim; prefer
items with a zero cross-buffer count, LRU among them, otherwise LRU over all. -/
def notInOtherLru (choices : List (EItem × Nat)) : Option EItem :=
  if choices.isEmpty then none
  else
    let selected := (choices.filter (fun p => p.2 = 0)).map Prod.fst
    if selected.isEmpty then pythonMinBy EItem.eviction_data (choices.map Prod.fst)
    else pythonMinBy EItem.eviction_data selected

/-- `NotInOtherEvictionStrategy.choose_crypto` (and the trust / reputation /
stereotype variants differ only in how the cross-buffer `count` is obtained
from `buffers`): build `(item, count)` choices and apply `_lru`. -/
def notInOtherChoose (count : EItem → Nat) (items : List EItem) :
    Except Unit (Option EItem) :=
  Except.ok (notInOtherLru (items.map (fun item => (item, count item))))

/-- `NotInOtherEvictionStrategy.choose_challenge_response`: plain
`min(items, key=eviction_data)` with no empty-list guard. -/
def notInOtherChooseCR (items : List EItem) : Except Unit (Option EItem) :=
  match pythonMinBy EItem.eviction_data items with
  | some r => Except.ok (some r)
  | none => Except.error ()

/-- `MinNotInOtherEvictionStrategy._lru`: empty choices mean no victim;
restrict to the minimal cross-buffer count and take LRU there. -/
def minNotInOtherLru (choices : List (EItem × Nat)) : Option EItem :=
  if choices.isEmpty then none
  else
    match pythonMinBy Prod.snd choices with
    | none => none
    | some m =>
      let selected := (choices.filter (fun p => p.2 = m.2)).map Prod.fst
      pythonMinBy EItem.eviction_data selected

/-- `MinNotInOtherEvictionStrategy.choose_crypto` and friends. -/
def minNotInOtherChoose (count : EItem → Nat) (items : List EItem) :
    Except Unit (Option EItem) :=
  Except.ok (minNotInOtherLru (items.map (fun item => (item, count item))))

/-- `MinNotInOtherEvictionStrategy.choose_challenge_response`: plain `min`. -/
def minNotInOtherChooseCR (items : List EItem) : Except Unit (Option EItem) :=
  match pythonMinBy EItem.eviction_data items with
  | some r => Except.ok (some r)
  | none => Except.error ()

/-- `CapabilityPriorityEvictionStrategy._lru`: empty choices mean no victim;
restrict to the minimal priority and take LRU there. -/
def capPriLru (choices : List (EItem × Int)) : Option EItem :=
  if choices.isEmpty then none
  else
    match pythonMinBy Prod.snd choices with
    | none => none
    | some m =>
      let selected := (choices.filter (fun p => p.2 = m.2)).map Prod.fst
      pythonMinBy EItem.eviction_data selected

/-- `CapabilityPriorityEvictionStrategy.choose_crypto` and friends: pair each
item with a priority derived from its capabilities and apply `_lru`. -/
def capPriChoose (priority : EItem → Int) (items : List EItem) :
    Except Unit (Option EItem) :=
  Except.ok (capPriLru (items.map (fun item => (item, priority item))))

/-- `CapabilityPriorityEvictionStrategy.choose_challenge_response`: plain
`min`. -/
def capPriChooseCR (items : List EItem) : Except Unit (Option EItem) :=
  match pythonMinBy EItem.eviction_data items with
  | some r => Except.ok (some r)
  | none => Except.error ()

/-- `CuckooEvictionStrategy.choose_common`: `None` on an empty list, then a
badlist membership test on each item's agent, after which *both* branches run
the same `min(items, key=eviction_data)`. -/
def cuckooChooseCommon (badlist : Nat → Bool) (items : List EItem) :
    Except Unit (Option EItem) :=
  if items.isEmpty then Except.ok none
  else
    let badlisted := items.filter (fun item => badlist item.agent)
    if ¬badlisted.isEmpty then
      match pythonMinBy EItem.eviction_data items with
      | some r => Except.ok (some r)
      | none => Except.error ()
    else
      match pythonMinBy EItem.eviction_data items with
      | some r => Except.ok (some r)
      | none => Except.error ()

/-!
### The LRU strategy's bookkeeping (`add_common` / `use_common`)

`add_common` stamps the admitted item's `eviction_data` with the simulator's
current time; `use_common` refreshes it, and is a no-op on `None`.  The store
evolution is modelled as a list of `EItem`s addressed by `id`.
-/

/-- One bookkeeping call reaching `LRUEvictionStrategy`. -/
inductive LruOp : Type
  | add (i : Nat)
  | use (i : Option Nat)

/-- `use_common(item)` for an item already in the store: stamp its
`eviction_data` with the current time (mutation through the shared object). -/
def stampById (s : List EItem) (i : Nat) (t : ℚ) : List EItem :=
  s.map (fun x => if x.id = i then { x with eviction_data := (t : WithBot ℚ) } else x)

/-- One step of the store under the LRU strategy: `add` admits a fresh item
stamped by `add_common` at time `t`; `use none` is a no-op; `use (some i)`
restamps item `i`. -/
def lruStep (s : List EItem) : LruOp × ℚ → List EItem
  | (LruOp.add i, t) => s ++ [{ id := i, agent := i, eviction_data := (t : WithBot ℚ) }]
  | (LruOp.use none, _) => s
  | (LruOp.use (some i), t) => stampById s i t

/-- The store after a sequence of timed LRU bookkeeping calls. -/
def lruRun (ops : List (LruOp × ℚ)) : List EItem :=
  ops.foldl lruStep []

/-!
## `simulation/agent_buffers.py` — `AgentBuffers`
-/

/-- The five bounded stores owned by one agent (contents only; the capacities
enter through `blAppend` where they matter). -/
structure AgentBuffers : Type where
  crypto : List CryptoItem
  trust : List TrustItem
  reputation : List ReputationItem
  stereotype : List StereotypeItem
  cr : List ChallengeResponseItem
deriving DecidableEq

/-- `AgentBuffers.find_crypto`: first item about the given agent. -/
def find_crypto (b : AgentBuffers) (agent : Nat) : Option CryptoItem :=
  b.crypto.find? (fun item => item.agent == agent)

/-- `AgentBuffers.find_trust`: first item about the given agent and
capability. -/
def find_trust (b : AgentBuffers) (agent capability : Nat) : Option TrustItem :=
  b.trust.find? (fun item => item.agent == agent && item.capability == capability)

/-- `AgentBuffers.find_reputation_contents`: reputation items whose embedded
trust list mentions the given agent and capability. -/
def find_reputation_contents (b : AgentBuffers) (agent capability : Nat) :
    List ReputationItem :=
  b.reputation.filter (fun item =>
    item.trust_items.any (fun t => t.agent == agent && t.capability == capability))

/-- `AgentBuffers.find_stereotype`. -/
def find_stereotype (b : AgentBuffers) (agent capability : Nat) : Option StereotypeItem :=
  b.stereotype.find? (fun item => item.agent == agent && item.capability == capability)

/-- The closure `Uc` of `AgentBuffers.utility`: 1 iff a crypto item exists. -/
def Uc (b : AgentBuffers) (other : Nat) : ℚ :=
  if (find_crypto b other).isSome then 1 else 0

/-- The closure `Ud` of `AgentBuffers.utility`: 1 iff the trust item found for
`(other, capability)` has at least one recorded outcome. -/
def Ud (b : AgentBuffers) (capability other : Nat) : ℚ :=
  match find_trust b other capability with
  | none => 0
  | some item => if 0 < item.total_count then 1 else 0

/-- The closure `Up` of `AgentBuffers.utility`: 1 iff some reputation item
mentioning `(other, capability)` embeds any trust item with a recorded
outcome. -/
def Up (b : AgentBuffers) (capability other : Nat) : ℚ :=
  if (find_reputation_contents b other capability).any
      (fun item => item.trust_items.any (fun t => decide (0 < t.total_count))) then 1 else 0

/-- The closure `Us` of `AgentBuffers.utility`: 1 iff a stereotype item exists
for `(other, capability)`. -/
def Us (b : AgentBuffers) (capability other : Nat) : ℚ :=
  if (find_stereotype b other capability).isSome then 1 else 0

/-- The eligible targets of `AgentBuffers.utility`:
`[a for a in targets if a is not agent and capability in a.capabilities]`. -/
def utilityEligible (agent capability : Nat) (caps : Nat → List Nat)
    (targets : List Nat) : List Nat :=
  targets.filter (fun a => decide (a ≠ agent ∧ capability ∈ caps a))

/-- `AgentBuffers.utility` (the current `agent_buffers.py` version):
`NaN` (here `none`) on an empty eligible list, otherwise
`sum(Uc(a) * (1 + Ud(a) + Up(a) + Us(a)) * (1.0/4.0) for a in agents) / len(agents)`.
`caps a` lists the capabilities of agent `a`. -/
def utility (b : AgentBuffers) (agent capability : Nat) (caps : Nat → List Nat)
    (targets : List Nat) : Option ℚ :=
  let agents := utilityEligible agent capability caps targets
  if agents.isEmpty then none
  else
    some (((agents.map (fun a =>
      Uc b a * (1 + Ud b capability a + Up b capability a + Us b capability a) * (1/4))).sum)
      / (agents.length : ℚ))

/-- `AgentBuffers.add_crypto` / `add_trust` / `add_reputation` /
`add_stereotype` / `add_challenge_response`, which all share this shape: try
`store.append(item)`; on `BoundExceedError` ask the strategy for a victim; on
`None` drop the candidate, otherwise remove the victim, record one eviction
metric (`evictedCount` counts the `metrics.add_evicted_*` calls), and append
the new item; finally `es.add_X(item)` stamps the just-appended item's
`eviction_data`, modelled by inserting `onAdd item`. -/
def addItemG {α : Type} [DecidableEq α] (cap : Option Nat) (choose : List α → Option α)
    (onAdd : α → α) (store : List α) (item : α) (evictedCount : Nat) : List α × Nat :=
  match blAppend cap store item with
  | Except.ok _ => (store ++ [onAdd item], evictedCount)
  | Except.error _ =>
    match choose store with
    | none => (store, evictedCount)
    | some choice => ((store.erase choice) ++ [onAdd item], evictedCount + 1)

/-!
## `simulation/simulator.py` — `Simulator.run`

Events carry a float time (`ℚ`) and a payload tag; their actions are an
oracle `act` mapping the executed event and the current time to the events it
enqueues.  `heapq.heappop` returns a minimal-time event (`BaseEvent.__lt__`
compares `event_time`); the model pops the first minimal one.  A failed
`assert item.event_time >= self.current_time` aborts the run (`none`);
otherwise the result lists the `current_time` values of the executed events.
-/

/-- A queued event: `event_time` plus a payload identifier. -/
structure SimEvent : Type where
  event_time : ℚ
  tag : Nat
deriving DecidableEq

/-- `heapq.heappop`: remove and return a minimal-time event. -/
def popMin (q : List SimEvent) : Option (SimEvent × List SimEvent) :=
  match pythonMinBy SimEvent.event_time q with
  | none => none
  | some e => some (e, q.erase e)

/-- The `while self.queue:` loop of `Simulator.run`, with explicit fuel for
the recursion (each iteration may enqueue new events via `act`). -/
def runSim (duration : ℚ) (act : SimEvent → ℚ → List SimEvent) :
    Nat → ℚ → List SimEvent → Option (List ℚ)
  | 0, _, _ => some []
  | fuel + 1, t, q =>
    match popMin q with
    | none => some []
    | some (e, rest) =>
      if e.event_time < t then none
      else if duration < e.event_time then some []
      else Option.map (fun tr => e.event_time :: tr)
        (runSim duration act fuel e.event_time (rest ++ act e e.event_time))

/-!
## `simulation/agent.py` — `Agent.receive_trust_information`

The reputation snapshot is built with
`ReputationItem(agent, copy.copy(agent.buffers.trust))`.  `copy.copy` of a
list produces a new list holding the *same* object references, so the model
keeps a heap (`Nat → TrustItem`) of trust-item objects addressed by reference,
and the live store and the snapshot are lists of addresses into it.
-/

/-- Update one trust-item object on the heap (an in-place mutation such as
`TrustItem.record`, visible through every reference to that object). -/
def heapUpdate (h : Nat → TrustItem) (addr : Nat) (v : TrustItem) : Nat → TrustItem :=
  fun a => if a = addr then v else h a

/-- Dereference a list of trust-item references. -/
def readRefs (h : Nat → TrustItem) (addrs : List Nat) : List TrustItem :=
  addrs.map h

/-- `copy.copy` on a Python list of objects: a new list with the same object
references. -/
def pyShallowCopy (refs : List Nat) : List Nat :=
  refs

/-- The `trust_items` reference list of the `ReputationItem` built by
`Agent.receive_trust_information`: `copy.copy(agent.buffers.trust)`. -/
def receiveTrustSnapshotRefs (sourceTrust : List Nat) : List Nat :=
  pyShallowCopy sourceTrust

/-- The spec-side reading of the `Uc` term in the utility formula: 1 iff a
crypto item *exists* for the target (compared with the source's
`find_crypto`-based closure in the claim theorem for the utility function). -/
def UcSpec (b : AgentBuffers) (other : Nat) : ℚ :=
  if ∃ c ∈ b.crypto, c.agent = other then 1 else 0

/-!
## Helper lemmas
-/

theorem foldl_minBy_spec {α β : Type} [LinearOrder β] (key : α → β) :
    ∀ (l : List α) (b : α),
      (l.foldl (fun best y => if key y < key best then y else best) b = b ∨
        l.foldl (fun best y => if key y < key best then y else best) b ∈ l) ∧
      key (l.foldl (fun best y => if key y < key best then y else best) b) ≤ key b ∧
      ∀ x ∈ l, key (l.foldl (fun best y => if key y < key best then y else best) b) ≤ key x := by
  intro l
  induction l with
  | nil => intro b; simp
  | cons y ys ih =>
    intro b
    rcases ih (if key y < key b then y else b) with ⟨hmem, hle, hall⟩
    constructor
    · rcases hmem with h | h
      · rw [List.foldl_cons]
        by_cases hc : key y < key b
        · right; rw [h, if_pos hc]; exact List.mem_cons_self _ _
        · left; rw [h, if_neg hc]
      · right
        rw [List.foldl_cons]
        exact List.mem_cons_of_mem _ h
    constructor
    · rw [List.foldl_cons]
      refine le_trans hle ?_
      by_cases hc : key y < key b
      · rw [if_pos hc]; exact le_of_lt hc
      · rw [if_neg hc]
    · intro x hx
      rw [List.foldl_cons]
      rcases List.mem_cons.mp hx with rfl | hx
      · refine le_trans hle ?_
        by_cases hc : key x < key b
        · rw [if_pos hc]
        · rw [if_neg hc]; exact le_of_not_lt hc
      · exact hall x hx

theorem pythonMinBy_spec {α β : Type} [LinearOrder β] (key : α → β) (l : List α)
    (hne : l ≠ []) :
    ∃ r, pythonMinBy key l = some r ∧ r ∈ l ∧ ∀ x ∈ l, key r ≤ key x := by
  match l with
  | [] => exact absurd rfl hne
  | x :: xs =>
    rcases foldl_minBy_spec key xs x with ⟨hmem, hle, hall⟩
    refine ⟨_, rfl, ?_, ?_⟩
    · rcases hmem with h | h
      · rw [h]; exact List.mem_cons_self _ _
      · exact List.mem_cons_of_mem _ h
    · intro z hz
      rcases List.mem_cons.mp hz with rfl | hz
      · exact hle
      · exact hall z hz

theorem pyInsert_length {α : Type} (l : List α) (pos : Int) (x : α) :
    (pyInsert l pos x).length = l.length + 1 := by
  simp only [pyInsert]
  apply List.length_insertIdx
  by_cases hp : pos < 0
  · rw [if_pos hp]
    omega
  · rw [if_neg hp]
    omega

theorem blStep_length_le {α : Type} [DecidableEq α] (C : Nat) (hC : 1 ≤ C)
    (l : List α) (op : BLOp α) (h : l.length ≤ C) : (blStep (some C) l op).length ≤ C := by
  cases op with
  | append x =>
    simp only [blStep, blAppend]
    by_cases hcond : C ≠ 0 ∧ C ≤ l.length
    · rw [if_pos hcond]
      exact h
    · rw [if_neg hcond]
      simp only [List.length_append, List.length_cons, List.length_nil]
      omega
  | insert pos x =>
    simp only [blStep, blInsert]
    by_cases hcond : C ≠ 0 ∧ C ≤ l.length
    · rw [if_pos hcond]
      exact h
    · rw [if_neg hcond]
      show (pyInsert l pos x).length ≤ C
      rw [pyInsert_length]
      omega
  | remove x =>
    simp only [blStep, pyRemove]
    by_cases hmem : x ∈ l
    · rw [if_pos hmem]
      exact le_trans (List.length_erase_le _ _) h
    · rw [if_neg hmem]
      exact h
  | extendOp xs =>
    simp only [blStep, blExtend]
    by_cases hcond : C ≠ 0 ∧ C < l.length + xs.length
    · rw [if_pos hcond]
      exact h
    · rw [if_neg hcond]
      simp only [List.length_append]
      omega

theorem blRun_length_le {α : Type} [DecidableEq α] (C : Nat) (hC : 1 ≤ C)
    (ops : List (BLOp α)) : (blRun (some C) ops).length ≤ C := by
  suffices h : ∀ (l : List α), l.length ≤ C → (ops.foldl (blStep (some C)) l).length ≤ C by
    exact h [] (by simp)
  induction ops with
  | nil => intro l hl; simpa using hl
  | cons op rest ih =>
    intro l hl
    rw [List.foldl_cons]
    exact ih _ (blStep_length_le C hC l op hl)

/-!
## The claims
-/

/-- C1 (counterexample): with capacity 0 the truthiness test
`if self.length and ...` is false, so `append` does *not* raise
`BoundExceedError`; it succeeds and the store holds the appended item, making
its length exceed the capacity. -/
theorem boundedlist_capacity_zero_append_succeeds :
    blAppend (some 0) ([] : List Nat) 7 = Except.ok [7] ∧
    (blRun (some 0) [BLOp.append (7 : Nat)]).length = 1 := by
  exact ⟨rfl, rfl⟩

/-- C1 (amended): for every capacity `C ≥ 1` the length of a `BoundedList`
never exceeds `C` after any sequence of append/insert/remove/extend
operations; for `C = 0` the bound check is disabled (`0` is falsy in
`if self.length and ...`), so `append` never raises and the list grows
without bound. -/
theorem boundedlist_length_invariant {α : Type} [DecidableEq α] (C : Nat) (hC : 1 ≤ C)
    (ops : List (BLOp α)) (l : List α) (x : α) :
    (blRun (some C) ops).length ≤ C ∧ blAppend (some 0) l x = Except.ok (l ++ [x]) := by
  refine ⟨blRun_length_le C hC ops, ?_⟩
  simp [blAppend]

/-- C1 witness. -/
theorem boundedlist_length_invariant_witness :
    (blRun (some 1) [BLOp.append (0 : Nat), BLOp.append 1, BLOp.insert 0 2]).length ≤ 1 ∧
    blAppend (some 0) [3, 4] (5 : Nat) = Except.ok [3, 4, 5] :=
  boundedlist_length_invariant 1 (by decide) _ [3, 4] 5

/-- C2: when an `add_X` hits a full store (`append` raised
`BoundExceedError`): if the strategy chooses no victim the store and the
eviction-metric count are unchanged and the candidate is dropped; if it
chooses a victim from the store, exactly one eviction metric is recorded and
the resulting store contains the (stamped) new item but no longer the
victim. -/
theorem add_item_eviction_spec {α : Type} [DecidableEq α] (n : Nat)
    (choose : List α → Option α) (onAdd : α → α) (store : List α) (item : α)
    (evictedCount : Nat) (hn : n ≠ 0) (hfull : n ≤ store.length) (hnodup : store.Nodup) :
    (choose store = none →
      addItemG (some n) choose onAdd store item evictedCount = (store, evictedCount)) ∧
    (∀ v, choose store = some v → v ∈ store → v ≠ onAdd item →
      addItemG (some n) choose onAdd store item evictedCount =
        (store.erase v ++ [onAdd item], evictedCount + 1) ∧
      onAdd item ∈ store.erase v ++ [onAdd item] ∧
      v ∉ store.erase v ++ [onAdd item]) := by
  have hraise : blAppend (some n) store item = Except.error () := by
    simp only [blAppend]
    rw [if_pos ⟨hn, hfull⟩]
  constructor
  · intro hnone
    simp only [addItemG, hraise, hnone]
  · intro v hsome hvmem hvne
    refine ⟨by simp only [addItemG, hraise, hsome], by simp, ?_⟩
    intro hmem
    rcases List.mem_append.mp hmem with hmem | hmem
    · exact (List.Nodup.not_mem_erase hnodup) hmem
    · rcases List.mem_singleton.mp hmem with rfl
      exact hvne rfl

theorem runSim_chain (duration : ℚ) (act : SimEvent → ℚ → List SimEvent) :
    ∀ (fuel : Nat) (t : ℚ) (q : List SimEvent) (trace : List ℚ),
      runSim duration act fuel t q = some trace →
      List.Chain' (· ≤ ·) (t :: trace) ∧ ∀ x ∈ trace, x ≤ duration := by
  intro fuel
  induction fuel with
  | zero =>
    intro t q trace h
    simp only [runSim, Option.some_inj] at h
    subst h
    exact ⟨List.chain'_singleton t, by simp⟩
  | succ fuel ih =>
    intro t q trace h
    simp only [runSim] at h
    cases hp : popMin q with
    | none =>
      rw [hp, Option.some_inj] at h
      subst h
      exact ⟨List.chain'_singleton t, by simp⟩
    | some pr =>
      obtain ⟨e, rest⟩ := pr
      simp only [hp] at h
      by_cases h1 : e.event_time < t
      · rw [if_pos h1] at h
        exact absurd h (by simp)
      · rw [if_neg h1] at h
        by_cases h2 : duration < e.event_time
        · rw [if_pos h2, Option.some_inj] at h
          subst h
          exact ⟨List.chain'_singleton t, by simp⟩
        · rw [if_neg h2] at h
          obtain ⟨tr, hrec, htr⟩ := Option.map_eq_some'.mp h
          subst htr
          obtain ⟨hchain, hmem⟩ := ih e.event_time (rest ++ act e e.event_time) tr hrec
          refine ⟨List.chain'_cons.mpr ⟨le_of_not_lt h1, hchain⟩, ?_⟩
          intro x hx
          rcases List.mem_cons.mp hx with rfl | hx
          · exact le_of_not_lt h2
          · exact hmem x hx

/-- C3: for every run of the scheduler loop, the `current_time` values taken
across the executed events are non-decreasing (starting from the initial
time); a popped event beyond the configured duration terminates the run
without executing its action (the run ends with no further executed event);
and a popped event earlier than the current time fails the
`assert item.event_time >= self.current_time` and aborts the run. -/
theorem simulator_run_monotone (duration : ℚ) (act : SimEvent → ℚ → List SimEvent)
    (fuel : Nat) (t : ℚ) (q : List SimEvent) :
    (∀ trace, runSim duration act fuel t q = some trace →
      List.Chain' (· ≤ ·) (t :: trace) ∧ ∀ x ∈ trace, x ≤ duration) ∧
    (∀ e rest, popMin q = some (e, rest) → t ≤ e.event_time → duration < e.event_time →
      runSim duration act (fuel + 1) t q = some []) ∧
    (∀ e rest, popMin q = some (e, rest) → e.event_time < t →
      runSim duration act (fuel + 1) t q = none) := by
  refine ⟨fun trace h => runSim_chain duration act fuel t q trace h, ?_, ?_⟩
  · intro e rest hp hle hgt
    simp only [runSim, hp]
    rw [if_neg (not_lt.mpr hle), if_pos hgt]
  · intro e rest hp hlt
    simp only [runSim, hp]
    rw [if_pos hlt]

/-- C3 witness. -/
theorem simulator_run_monotone_witness :
    (List.Chain' (· ≤ ·) [(0 : ℚ), 1, 2] ∧ ∀ x ∈ [(1 : ℚ), 2], x ≤ (10 : ℚ)) ∧
    runSim 10 (fun _ _ => []) 1 0 [⟨20, 0⟩] = some [] ∧
    runSim 10 (fun _ _ => []) 1 5 [⟨1, 0⟩] = none :=
  ⟨(simulator_run_monotone 10 (fun _ _ => []) 2 0 [⟨1, 0⟩, ⟨2, 1⟩]).1 [1, 2] (by decide),
   (simulator_run_monotone 10 (fun _ _ => []) 0 0 [⟨20, 0⟩]).2.1 ⟨20, 0⟩ [] (by decide)
     (by decide) (by decide),
   (simulator_run_monotone 10 (fun _ _ => []) 0 5 [⟨1, 0⟩]).2.2 ⟨1, 0⟩ [] (by decide)
     (by decide)⟩

/-- C5: evaluating the code at the failing input.  Agent B's live trust store
holds one `TrustItem(agent=2, capability=0)` with zero counters (heap address
0); `Agent.receive_trust_information` snapshots it with
`copy.copy(agent.buffers.trust)` — a *shallow* copy, so the snapshot holds the
same object reference.  After the live item is mutated by
`TrustItem.record(Correct)`, reading the snapshot shows `correct_count = 1`:
the snapshot is aliased, contradicting the claimed deep, independent copy. -/
theorem reputation_snapshot_aliasing :
    readRefs (fun _ => { agent := 2, capability := 0 }) (receiveTrustSnapshotRefs [0]) =
      [{ agent := 2, capability := 0 }] ∧
    readRefs
      (heapUpdate (fun _ => { agent := 2, capability := 0 }) 0
        (TrustItem.record { agent := 2, capability := 0 } InteractionObservation.Correct))
      (receiveTrustSnapshotRefs [0]) =
      [{ agent := 2, capability := 0, correct_count := 1 }] ∧
    readRefs
      (heapUpdate (fun _ => { agent := 2, capability := 0 }) 0
        (TrustItem.record { agent := 2, capability := 0 } InteractionObservation.Correct))
      (receiveTrustSnapshotRefs [0]) ≠
    readRefs (fun _ => { agent := 2, capability := 0 }) (receiveTrustSnapshotRefs [0]) := by
  decide

theorem trailingIncorrect_append (xs : List InteractionObservation)
    (x : InteractionObservation) :
    trailingIncorrect (xs ++ [x]) =
      if x = InteractionObservation.Incorrect then trailingIncorrect xs + 1 else 0 := by
  simp only [trailingIncorrect, List.reverse_append, List.reverse_singleton,
    List.singleton_append, List.takeWhile_cons]
  cases x with
  | Correct => simp
  | Incorrect => simp

/-- C10: after each `ChallengeResponseItem.record` call, `good` holds iff
`sequential_fails = 0`; the `epoch` counter grows by one exactly when the call
flips `good` and is otherwise unchanged; and over any sequence of calls
starting from a freshly constructed item, `sequential_fails` equals the
number of consecutive trailing `Incorrect` outcomes. -/
theorem challenge_response_record_spec :
    (∀ (c : ChallengeResponseItem) (o : InteractionObservation),
      ((c.record o).good = true ↔ (c.record o).sequential_fails = 0)) ∧
    (∀ (c : ChallengeResponseItem) (o : InteractionObservation),
      (c.record o).epoch =
        if c.good = decide (o = InteractionObservation.Correct) then c.epoch
        else c.epoch + 1) ∧
    (∀ (a : Nat) (g : Bool) (ed : WithBot ℚ) (outcomes : List InteractionObservation),
      (outcomes.foldl ChallengeResponseItem.record
        { agent := a, good := g, eviction_data := ed }).sequential_fails =
        trailingIncorrect outcomes) := by
  refine ⟨?_, ?_, ?_⟩
  · intro c o
    cases o <;> simp [ChallengeResponseItem.record]
  · intro c o
    cases o <;> by_cases hg : c.good <;>
      simp [ChallengeResponseItem.record, hg]
  · intro a g ed outcomes
    induction outcomes using List.reverseRecOn with
    | nil => rfl
    | append_singleton xs x ih =>
      rw [List.foldl_append, List.foldl_cons, List.foldl_nil, trailingIncorrect_append]
      cases x with
      | Correct => simp [ChallengeResponseItem.record]
      | Incorrect => simp [ChallengeResponseItem.record, ih]

theorem Uc_eq_UcSpec (b : AgentBuffers) (other : Nat) : Uc b other = UcSpec b other := by
  simp only [Uc, UcSpec, find_crypto]
  have hiff : (b.crypto.find? (fun item => item.agent == other)).isSome = true ↔
      ∃ c ∈ b.crypto, c.agent = other := by
    rw [List.find?_isSome]
    simp
  by_cases h : ∃ c ∈ b.crypto, c.agent = other
  · rw [if_pos (hiff.mpr h), if_pos h]
  · rw [if_neg (fun hh => h (hiff.mp hh)), if_neg h]

/-- C4: the utility of an observer's buffers is `NaN` (`none`) exactly when
the eligible target list (targets other than the observer that hold the
capability) is empty; on a non-empty eligible list it is the mean over
eligible targets of `Uc(target) * (1 + Ud + Up + Us) / 4` where `Uc` is 1 iff
a crypto item exists for the target; and it is exactly 0 whenever the crypto
store is empty. -/
theorem utility_spec (b : AgentBuffers) (agent capability : Nat) (caps : Nat → List Nat)
    (targets : List Nat) :
    (utility b agent capability caps targets = none ↔
      utilityEligible agent capability caps targets = []) ∧
    (utilityEligible agent capability caps targets ≠ [] →
      utility b agent capability caps targets =
        some (((utilityEligible agent capability caps targets).map (fun a =>
          UcSpec b a * (1 + Ud b capability a + Up b capability a + Us b capability a) / 4)).sum
          / ((utilityEligible agent capability caps targets).length : ℚ))) ∧
    (utilityEligible agent capability caps targets ≠ [] → b.crypto = [] →
      utility b agent capability caps targets = some 0) := by
  refine ⟨?_, ?_, ?_⟩
  · simp only [utility]
    by_cases he : (utilityEligible agent capability caps targets).isEmpty
    · rw [if_pos he]
      simp only [List.isEmpty_iff] at he
      simp [he]
    · rw [if_neg he]
      simp only [List.isEmpty_iff] at he
      simp [he]
  · intro hne
    simp only [utility]
    rw [if_neg (by simpa [List.isEmpty_iff] using hne)]
    have hmap : (utilityEligible agent capability caps targets).map (fun a =>
        Uc b a * (1 + Ud b capability a + Up b capability a + Us b capability a) * (1/4)) =
        (utilityEligible agent capability caps targets).map (fun a =>
        UcSpec b a * (1 + Ud b capability a + Up b capability a + Us b capability a) / 4) := by
      apply List.map_congr_left
      intro a _
      rw [Uc_eq_UcSpec, mul_one_div]
    rw [hmap]
  · intro hne hcr
    simp only [utility]
    rw [if_neg (by simpa [List.isEmpty_iff] using hne)]
    have hzero : (((utilityEligible agent capability caps targets).map (fun a =>
        Uc b a * (1 + Ud b capability a + Up b capability a + Us b capability a) * (1/4))).sum)
        = 0 := by
      apply List.sum_eq_zero
      intro x hx
      obtain ⟨a, _, rfl⟩ := List.mem_map.mp hx
      have huc : Uc b a = 0 := by
        simp [Uc, find_crypto, hcr]
      rw [huc, zero_mul, zero_mul]
    rw [hzero, zero_div]

/-- C4 witness. -/
theorem utility_spec_witness :
    utility { crypto := [], trust := [], reputation := [], stereotype := [], cr := [] }
      0 0 (fun _ => [0]) [1] = some 0 ∧
    (utility { crypto := [], trust := [], reputation := [], stereotype := [], cr := [] }
      0 0 (fun _ => [0]) [] = none ↔
      utilityEligible 0 0 (fun _ => [0]) [] = []) :=
  ⟨(utility_spec { crypto := [], trust := [], reputation := [], stereotype := [], cr := [] }
      0 0 (fun _ => [0]) [1]).2.2 (by decide) rfl,
   (utility_spec { crypto := [], trust := [], reputation := [], stereotype := [], cr := [] }
      0 0 (fun _ => [0]) []).1⟩

theorem lruStep_stamped (s : List EItem) (op : LruOp × ℚ)
    (h : ∀ x ∈ s, x.eviction_data ≠ ⊥) : ∀ x ∈ lruStep s op, x.eviction_data ≠ ⊥ := by
  obtain ⟨o, t⟩ := op
  cases o with
  | add i =>
    intro x hx
    rcases List.mem_append.mp hx with hx | hx
    · exact h x hx
    · rcases List.mem_singleton.mp hx with rfl
      simp
  | use oi =>
    cases oi with
    | none => exact h
    | some i =>
      intro x hx
      simp only [lruStep, stampById] at hx
      obtain ⟨y, hy, hxy⟩ := List.mem_map.mp hx
      by_cases hid : y.id = i
      · rw [if_pos hid] at hxy
        rw [← hxy]
        simp
      · rw [if_neg hid] at hxy
        rw [← hxy]
        exact h y hy

theorem lruRun_stamped (ops : List (LruOp × ℚ)) :
    ∀ x ∈ lruRun ops, x.eviction_data ≠ ⊥ := by
  suffices h : ∀ (s : List EItem), (∀ x ∈ s, x.eviction_data ≠ ⊥) →
      ∀ x ∈ ops.foldl lruStep s, x.eviction_data ≠ ⊥ by
    exact h [] (by simp)
  induction ops with
  | nil => intro s hs; simpa using hs
  | cons op rest ih =>
    intro s hs
    rw [List.foldl_cons]
    exact ih _ (lruStep_stamped s op hs)

/-- C6: under the LRU strategy, after any sequence of `add_common` /
`use_common` calls at non-decreasing simulator times, `choose_common` on a
non-empty candidate list taken from the store returns an item whose
`eviction_data` time stamp (set by `add_common`, never still `None`) is
minimal among the candidates; `use_common(None)` is a no-op; and
`use_common(item)` refreshes the stamped time of exactly the used item. -/
theorem lru_choose_minimal (ops : List (LruOp × ℚ)) (cands : List EItem)
    (_hmono : List.Chain' (· ≤ ·) (ops.map Prod.snd)) (hne : cands ≠ [])
    (hsub : cands.Sublist (lruRun ops)) :
    (∃ r, lruChooseCommon cands = Except.ok (some r) ∧ r ∈ cands ∧
      r.eviction_data ≠ ⊥ ∧ ∀ x ∈ cands, r.eviction_data ≤ x.eviction_data) ∧
    (∀ (s : List EItem) (t : ℚ), lruStep s (LruOp.use none, t) = s) ∧
    (∀ (s : List EItem) (i : Nat) (t : ℚ) (x : EItem), x ∈ stampById s i t → x.id = i →
      x.eviction_data = (t : WithBot ℚ)) := by
  refine ⟨?_, fun s t => rfl, ?_⟩
  · obtain ⟨r, hmin, hmem, hall⟩ := pythonMinBy_spec EItem.eviction_data cands hne
    refine ⟨r, ?_, hmem, ?_, hall⟩
    · simp only [lruChooseCommon, hmin]
    · exact lruRun_stamped ops r (hsub.subset hmem)
  · intro s i t x hx hid
    simp only [stampById] at hx
    obtain ⟨y, hy, hxy⟩ := List.mem_map.mp hx
    by_cases h2 : y.id = i
    · rw [if_pos h2] at hxy
      rw [← hxy]
    · rw [if_neg h2] at hxy
      rw [← hxy] at hid
      exact absurd hid h2

/-- C6 witness. -/
theorem lru_choose_minimal_witness :
    (∃ r, lruChooseCommon (lruRun [(LruOp.add 1, 0), (LruOp.add 2, 1),
        (LruOp.use (some 1), 2)]) = Except.ok (some r) ∧
      r ∈ lruRun [(LruOp.add 1, 0), (LruOp.add 2, 1), (LruOp.use (some 1), 2)] ∧
      r.eviction_data ≠ ⊥ ∧
      ∀ x ∈ lruRun [(LruOp.add 1, 0), (LruOp.add 2, 1), (LruOp.use (some 1), 2)],
        r.eviction_data ≤ x.eviction_data) ∧
    (∀ (s : List EItem) (t : ℚ), lruStep s (LruOp.use none, t) = s) ∧
    (∀ (s : List EItem) (i : Nat) (t : ℚ) (x : EItem), x ∈ stampById s i t → x.id = i →
      x.eviction_data = (t : WithBot ℚ)) :=
  lru_choose_minimal [(LruOp.add 1, 0), (LruOp.add 2, 1), (LruOp.use (some 1), 2)]
    (lruRun [(LruOp.add 1, 0), (LruOp.add 2, 1), (LruOp.use (some 1), 2)])
    (by simp only [List.map, List.chain'_cons, List.chain'_singleton, and_true]; norm_num)
    (by decide) (List.Sublist.refl _)

/-- C8 (counterexample): `LRUEvictionStrategy.choose_common` on an empty
candidate list is `min([], ...)`, which raises `ValueError`, and
`RandomEvictionStrategy.choose_common` is `rng.choice([])`, which raises
`IndexError` — neither returns "no victim". -/
theorem eviction_choose_empty_counterexample :
    lruChooseCommon [] = Except.error () ∧ randomChooseCommon 0 [] = Except.error () :=
  ⟨rfl, rfl⟩

/-- C8 (amended): on an empty candidate list, the None strategy, Cuckoo, and
the `_lru`-based choosers of NotInOther / MinNotInOther / CapabilityPriority
(used for crypto, trust, reputation and stereotype items) return no victim,
while Random raises `IndexError` and FIFO, LRU, LRU2, MRU, Chen2016, FiveBand
and the challenge-response choosers of NotInOther / MinNotInOther /
CapabilityPriority raise (`ValueError` from `min`, or numpy's error from
`np.quantile` of an empty array). -/
theorem eviction_choose_empty_behaviour :
    noneChooseCommon [] = Except.ok none ∧
    cuckooChooseCommon (fun _ => false) [] = Except.ok none ∧
    notInOtherChoose (fun _ => 0) [] = Except.ok none ∧
    minNotInOtherChoose (fun _ => 0) [] = Except.ok none ∧
    capPriChoose (fun _ => 0) [] = Except.ok none ∧
    randomChooseCommon 0 [] = Except.error () ∧
    fifoChooseCommon [] = Except.error () ∧
    lruChooseCommon [] = Except.error () ∧
    lru2ChooseCommon [] = Except.error () ∧
    mruChooseCommon [] = Except.error () ∧
    chen2016ChooseTrust [] = Except.error () ∧
    chen2016ChooseCommon [] = Except.error () ∧
    fiveBandChooseTrust [] = Except.error () ∧
    fiveBandChooseCommon [] = Except.error () ∧
    notInOtherChooseCR [] = Except.error () ∧
    minNotInOtherChooseCR [] = Except.error () ∧
    capPriChooseCR [] = Except.error () :=
  ⟨rfl, rfl, rfl, rfl, rfl, rfl, rfl, rfl, rfl, rfl, rfl, rfl, rfl, rfl, rfl, rfl, rfl⟩

/-- C9: `CuckooEvictionStrategy.choose_common` computes the badlist check but
both branches of the conditional run the same LRU selection, so on every
non-empty candidate list it returns exactly what plain LRU returns — an item
with minimal `eviction_data` — for every badlist. -/
theorem cuckoo_choose_equals_lru (badlist : Nat → Bool) (items : List EItem)
    (hne : items ≠ []) :
    cuckooChooseCommon badlist items = lruChooseCommon items ∧
    (∃ r, cuckooChooseCommon badlist items = Except.ok (some r) ∧ r ∈ items ∧
      ∀ x ∈ items, r.eviction_data ≤ x.eviction_data) := by
  have hempty : items.isEmpty = false := by
    cases items with
    | nil => exact absurd rfl hne
    | cons y ys => rfl
  obtain ⟨r, hmin, hmem, hall⟩ := pythonMinBy_spec EItem.eviction_data items hne
  have heq : cuckooChooseCommon badlist items = lruChooseCommon items := by
    simp only [cuckooChooseCommon, lruChooseCommon, hempty, Bool.false_eq_true, if_false]
    split_ifs <;> rfl
  refine ⟨heq, r, ?_, hmem, hall⟩
  rw [heq]
  simp only [lruChooseCommon, hmin]

/-- C9 witness. -/
theorem cuckoo_choose_equals_lru_witness :
    cuckooChooseCommon (fun _ => true)
        ([⟨1, 1, ((3 : ℚ) : WithBot ℚ)⟩, ⟨2, 2, ((1 : ℚ) : WithBot ℚ)⟩] : List EItem) =
      lruChooseCommon
        ([⟨1, 1, ((3 : ℚ) : WithBot ℚ)⟩, ⟨2, 2, ((1 : ℚ) : WithBot ℚ)⟩] : List EItem) ∧
    (∃ r, cuckooChooseCommon (fun _ => true)
        ([⟨1, 1, ((3 : ℚ) : WithBot ℚ)⟩, ⟨2, 2, ((1 : ℚ) : WithBot ℚ)⟩] : List EItem) =
          Except.ok (some r) ∧
      r ∈ ([⟨1, 1, ((3 : ℚ) : WithBot ℚ)⟩, ⟨2, 2, ((1 : ℚ) : WithBot ℚ)⟩] : List EItem) ∧
      ∀ x ∈ ([⟨1, 1, ((3 : ℚ) : WithBot ℚ)⟩, ⟨2, 2, ((1 : ℚ) : WithBot ℚ)⟩] : List EItem),
        r.eviction_data ≤ x.eviction_data) :=
  cuckoo_choose_equals_lru (fun _ => true)
    ([⟨1, 1, ((3 : ℚ) : WithBot ℚ)⟩, ⟨2, 2, ((1 : ℚ) : WithBot ℚ)⟩] : List EItem) (by decide)

theorem fiveband_brs_eval (e1 e2 e3 e4 e5 : ℚ) :
    List.map TrustItem.brs_trust
      ([⟨1, 0, 1, 9, (e1 : WithBot ℚ)⟩, ⟨2, 0, 3, 7, (e2 : WithBot ℚ)⟩,
        ⟨3, 0, 5, 5, (e3 : WithBot ℚ)⟩, ⟨4, 0, 7, 3, (e4 : WithBot ℚ)⟩,
        ⟨5, 0, 9, 1, (e5 : WithBot ℚ)⟩] : List TrustItem) =
      [1/10, 3/10, 1/2, 7/10, 9/10] := by
  simp only [List.map, TrustItem.brs_trust, TrustItem.total_count]
  norm_num

theorem ratFloorNat_eval (q : ℚ) (n : Nat) (h1 : (n : ℚ) ≤ q) (h2 : q < n + 1) :
    ratFloorNat q = n := by
  simp only [ratFloorNat]
  have hf : ⌊q⌋ = (n : ℤ) := by
    rw [Int.floor_eq_iff]
    constructor
    · exact_mod_cast h1
    · exact_mod_cast h2
  rw [hf]
  simp

theorem npQuantile_sorted_eval (s : List ℚ) (q r : ℚ) (i : Nat) (hne : s ≠ [])
    (hsort : pySort s = s)
    (hfl : ratFloorNat (q * ((s.length : ℚ) - 1)) = i)
    (hr : s.getD i 0 + (q * ((s.length : ℚ) - 1) - (i : ℚ)) *
      (s.getD (min (i + 1) (s.length - 1)) 0 - s.getD i 0) = r) :
    npQuantile s q = some r := by
  obtain ⟨x, xs, rfl⟩ : ∃ x xs, s = x :: xs := by
    cases s with
    | nil => exact absurd rfl hne
    | cons x xs => exact ⟨x, xs, rfl⟩
  simp only [npQuantile, hsort, hfl]
  rw [hr]

theorem fiveband_sorted :
    pySort [1/10, 3/10, 1/2, 7/10, 9/10] = [1/10, 3/10, 1/2, 7/10, 9/10] := by
  norm_num [pySort, insertSorted]

theorem fiveband_bounds_eval (e1 e2 e3 e4 e5 : ℚ) :
    fiveBandBounds
      ([⟨1, 0, 1, 9, (e1 : WithBot ℚ)⟩, ⟨2, 0, 3, 7, (e2 : WithBot ℚ)⟩,
        ⟨3, 0, 5, 5, (e3 : WithBot ℚ)⟩, ⟨4, 0, 7, 3, (e4 : WithBot ℚ)⟩,
        ⟨5, 0, 9, 1, (e5 : WithBot ℚ)⟩] : List TrustItem) =
      some (13/50, 21/50, 29/50, 37/50) := by
  have h1 : npQuantile [1/10, 3/10, 1/2, 7/10, 9/10] (1/5) = some (13/50) :=
    npQuantile_sorted_eval _ _ _ 0 (by simp) fiveband_sorted
      (ratFloorNat_eval _ 0 (by norm_num) (by norm_num)) (by norm_num)
  have h2 : npQuantile [1/10, 3/10, 1/2, 7/10, 9/10] (2/5) = some (21/50) :=
    npQuantile_sorted_eval _ _ _ 1 (by simp) fiveband_sorted
      (ratFloorNat_eval _ 1 (by norm_num) (by norm_num)) (by norm_num)
  have h3 : npQuantile [1/10, 3/10, 1/2, 7/10, 9/10] (3/5) = some (29/50) :=
    npQuantile_sorted_eval _ _ _ 2 (by simp) fiveband_sorted
      (ratFloorNat_eval _ 2 (by norm_num) (by norm_num)) (by norm_num)
  have h4 : npQuantile [1/10, 3/10, 1/2, 7/10, 9/10] (4/5) = some (37/50) :=
    npQuantile_sorted_eval _ _ _ 3 (by simp) fiveband_sorted
      (ratFloorNat_eval _ 3 (by norm_num) (by norm_num)) (by norm_num)
  simp only [fiveBandBounds, fiveband_brs_eval, h1, h2, h3, h4]

theorem fiveband_eligible_eval (e1 e2 e3 e4 e5 : ℚ) :
    fiveBandEligible
      ([⟨1, 0, 1, 9, (e1 : WithBot ℚ)⟩, ⟨2, 0, 3, 7, (e2 : WithBot ℚ)⟩,
        ⟨3, 0, 5, 5, (e3 : WithBot ℚ)⟩, ⟨4, 0, 7, 3, (e4 : WithBot ℚ)⟩,
        ⟨5, 0, 9, 1, (e5 : WithBot ℚ)⟩] : List TrustItem) =
      [⟨2, 0, 3, 7, (e2 : WithBot ℚ)⟩, ⟨4, 0, 7, 3, (e4 : WithBot ℚ)⟩] := by
  simp only [fiveBandEligible, fiveband_bounds_eval]
  norm_num [List.filter, TrustItem.brs_trust, TrustItem.total_count]

/-- C7: for five trust items with trust scores `[0.1, 0.3, 0.5, 0.7, 0.9]`,
the FiveBand eligible-for-eviction set is exactly the two items with scores
`0.3` and `0.7` — no item of the lowest, middle or highest band — and the
chosen victim is the LRU-minimal (earliest `eviction_data`) item of that
eligible set, for arbitrary recency stamps `e1..e5`. -/
theorem fiveband_band_selection (e1 e2 e3 e4 e5 : ℚ) :
    fiveBandEligible
      ([⟨1, 0, 1, 9, (e1 : WithBot ℚ)⟩, ⟨2, 0, 3, 7, (e2 : WithBot ℚ)⟩,
        ⟨3, 0, 5, 5, (e3 : WithBot ℚ)⟩, ⟨4, 0, 7, 3, (e4 : WithBot ℚ)⟩,
        ⟨5, 0, 9, 1, (e5 : WithBot ℚ)⟩] : List TrustItem) =
      [⟨2, 0, 3, 7, (e2 : WithBot ℚ)⟩, ⟨4, 0, 7, 3, (e4 : WithBot ℚ)⟩] ∧
    fiveBandChooseTrust
      ([⟨1, 0, 1, 9, (e1 : WithBot ℚ)⟩, ⟨2, 0, 3, 7, (e2 : WithBot ℚ)⟩,
        ⟨3, 0, 5, 5, (e3 : WithBot ℚ)⟩, ⟨4, 0, 7, 3, (e4 : WithBot ℚ)⟩,
        ⟨5, 0, 9, 1, (e5 : WithBot ℚ)⟩] : List TrustItem) =
      Except.ok (some (if e4 < e2 then ⟨4, 0, 7, 3, (e4 : WithBot ℚ)⟩
        else ⟨2, 0, 3, 7, (e2 : WithBot ℚ)⟩)) := by
  refine ⟨fiveband_eligible_eval e1 e2 e3 e4 e5, ?_⟩
  simp only [fiveBandChooseTrust, fiveband_bounds_eval, fiveband_eligible_eval,
    pythonMinBy, List.foldl]
  have hcond : (((⟨4, 0, 7, 3, (e4 : WithBot ℚ)⟩ : TrustItem)).eviction_data <
      ((⟨2, 0, 3, 7, (e2 : WithBot ℚ)⟩ : TrustItem)).eviction_data) ↔ e4 < e2 :=
    WithBot.coe_lt_coe
  by_cases h : e4 < e2
  · rw [if_pos (hcond.mpr h), if_pos h]
  · rw [if_neg (fun hh => h (hcond.mp hh)), if_neg h]

/-- C2 witness. -/
theorem add_item_eviction_spec_witness :
    addItemG (some 1) (fun _ => none) id [(0 : Nat)] 1 0 = ([0], 0) ∧
    (addItemG (some 1) (fun s => s.head?) id [(0 : Nat)] 1 0 =
      ([(0 : Nat)].erase 0 ++ [1], 1) ∧
      (1 : Nat) ∈ [(0 : Nat)].erase 0 ++ [1] ∧ (0 : Nat) ∉ [(0 : Nat)].erase 0 ++ [1]) :=
  ⟨(add_item_eviction_spec 1 (fun _ => none) id [0] 1 0 (by decide) (by decide)
      (by decide)).1 rfl,
   (add_item_eviction_spec 1 (fun s => s.head?) id [0] 1 0 (by decide) (by decide)
      (by decide)).2 0 rfl (by decide) (by decide)⟩

end TrustSim
